import Mathlib

/-!
Verification of `block/src/raw_sync.rs` from cloud-hypervisor: the synchronous
emulation of an asynchronous disk-I/O engine (`RawFileSync`) and its disk-file
facade (`RawFileDiskSync`).

Modelling conventions:
* Rust `usize`/`u64` values are `Nat` with explicit `% 2^64` wherever the Rust
  code can wrap (release-mode wrapping arithmetic); `off_t`/`isize` are `Int`.
* An `iovec` is modelled by the byte contents of the buffer it points to
  (`List Nat`); its `iov_len` is the list length.
* Syscalls (`preadv`, `pwritev`, `fsync`) are modelled by letting the caller of
  the model supply the syscall return values; each operation additionally
  emits an event trace recording, in program order, the syscalls it issued,
  the completion-queue pushes and the eventfd signals it performed.
* The eventfd notifier is modelled by its counter (`Nat`); `write(1)`
  increments it.
* For the read-modify-write property of the aligned write path a second,
  content-level embedding `write_vectored_disk` is given: it follows the same
  source control flow, with the disk modelled as a byte map `Nat → Nat`,
  `preadv` filling buffers from the disk and `pwritev` storing its gathered
  buffers to the disk.
-/

/-- 2^64, the modulus of Rust `usize`/`u64` arithmetic. -/
def U64 : Nat := 2 ^ 64

/-- 2^32, the modulus of Rust `u32`/`i32` arithmetic. -/
def U32 : Nat := 2 ^ 32

/-- Reinterpret the low 32 bits of a `usize` value as a signed `i32`
(the Rust cast `as i32`). -/
def toI32 (n : Nat) : Int :=
  if n % U32 < 2 ^ 31 then ((n % U32 : Nat) : Int)
  else ((n % U32 : Nat) : Int) - (U32 : Int)

/-- Wrapping `usize` subtraction `a - b` (release-mode Rust semantics),
for `a b < 2^64`. -/
def usizeSub (a b : Nat) : Nat := (a + U64 - b) % U64

/-- The Rust cast `off_t as usize` (two's-complement reinterpretation of an
`i64` as a `u64`). -/
def intToUsize (o : Int) : Nat := (o % (U64 : Int)).toNat

/-- The Rust cast `usize as off_t` (two's-complement reinterpretation of a
`u64` as an `i64`). -/
def usizeToOffT (n : Nat) : Int :=
  if n < 2 ^ 63 then (n : Int) else (n : Int) - (U64 : Int)

/-- `RawFileSync::round_down`: `(offset / alignment) * alignment` on `usize`.
No operation here can wrap for inputs below `2^64`. -/
def round_down (offset alignment : Nat) : Nat :=
  offset / alignment * alignment

/-- `RawFileSync::round_up`: `((offset + alignment - 1) / alignment) * alignment`
on `usize`; the intermediate sum wraps modulo `2^64`. -/
def round_up (offset alignment : Nat) : Nat :=
  (offset + alignment - 1) % U64 / alignment * alignment

/-- An I/O buffer (the bytes behind one `libc::iovec`); `iov_len` is its
length. -/
abbrev Iovec : Type := List Nat

/-- Total length of a scatter-gather list: the source folds
`acc + e.iov_len` over the iovecs with wrapping `usize` addition. -/
def totalLength (iovecs : List Iovec) : Nat :=
  iovecs.foldl (fun acc e => (acc + e.length) % U64) 0

/-- Mathematical (non-wrapping) sum of the iovec lengths. -/
def sumLens (iovecs : List Iovec) : Nat :=
  (iovecs.map List.length).sum

/-- The error kinds of `AsyncIoError` (each wraps an `std::io::Error` in the
source; only the kind matters for the verified properties). -/
inductive AsyncIoError : Type where
  | ReadVectored : AsyncIoError
  | WriteVectored : AsyncIoError
  | Fsync : AsyncIoError
deriving DecidableEq, Repr

/-- Observable actions of one engine operation, in program order: syscalls
issued, completion-queue pushes, and eventfd signals. -/
inductive Event : Type where
  | preadv (offset : Int) (iovLens : List Nat) : Event
  | pwritev (offset : Int) (iovLens : List Nat) : Event
  | fsyncCall : Event
  | pushed (entry : Nat × Int) : Event
  | signaled (n : Nat) : Event
deriving DecidableEq, Repr

/-- The state of `RawFileSync`: file descriptor, eventfd counter,
completion queue (front of the list = oldest entry), and the optional
logical block size. -/
structure RawFileSync : Type where
  fd : Int
  eventfd : Nat
  completion_list : List (Nat × Int)
  logical_block_size : Option Nat
deriving DecidableEq, Repr

/-- `RawFileSync::new`. `eventfdOk = false` models failure of
`EventFd::new`, on which the source panics (`expect`), modelled as `none`.
The completion list starts empty and the eventfd counter at zero. -/
def RawFileSync.new (fd : Int) (logical_block_size : Option Nat)
    (eventfdOk : Bool) : Option RawFileSync :=
  if eventfdOk then
    some { fd := fd, eventfd := 0, completion_list := [],
           logical_block_size := logical_block_size }
  else
    none

/-- `RawFileSync::notifier`: exposes the eventfd (its counter in this
model). -/
def RawFileSync.notifier (s : RawFileSync) : Nat := s.eventfd

/-- `RawFileSync::read_vectored`. `res` is the return value of the single
`preadv` syscall the operation issues. Returns the event trace and either
the error or the updated engine state. -/
def read_vectored (s : RawFileSync) (offset : Int) (iovecs : List Iovec)
    (user_data : Nat) (res : Int) :
    List Event × Except AsyncIoError RawFileSync :=
  match s.logical_block_size with
  | some lbs =>
    let logical_block_size := lbs % U64
    let offsetU := intToUsize offset
    let offset_aligned_down := round_down offsetU logical_block_size
    let total_length := totalLength iovecs
    let e := (offsetU + total_length) % U64
    let end_aligned_up := round_up e logical_block_size
    let header_len := usizeSub offsetU offset_aligned_down
    let footer_len := usizeSub end_aligned_up e
    let lens := header_len :: (iovecs.map List.length ++ [footer_len])
    let call := Event.preadv (usizeToOffT offset_aligned_down) lens
    if res < 0 then
      ([call], Except.error AsyncIoError.ReadVectored)
    else
      let entry := (user_data,
        toI32 (usizeSub res.toNat ((header_len + footer_len) % U64)))
      ([call, Event.pushed entry, Event.signaled 1],
        Except.ok { s with
          completion_list := s.completion_list ++ [entry],
          eventfd := s.eventfd + 1 })
  | none =>
    let call := Event.preadv offset (iovecs.map List.length)
    if res < 0 then
      ([call], Except.error AsyncIoError.ReadVectored)
    else
      let entry := (user_data, toI32 res.toNat)
      ([call, Event.pushed entry, Event.signaled 1],
        Except.ok { s with
          completion_list := s.completion_list ++ [entry],
          eventfd := s.eventfd + 1 })

/-- `RawFileSync::write_vectored`. `headerRes`, `footerRes` and `writeRes`
are the return values of the header `preadv`, the footer `preadv`, and the
`pwritev` syscalls, in the order the source issues them (a later value is
ignored when an earlier call already failed). -/
def write_vectored (s : RawFileSync) (offset : Int) (iovecs : List Iovec)
    (user_data : Nat) (headerRes footerRes writeRes : Int) :
    List Event × Except AsyncIoError RawFileSync :=
  match s.logical_block_size with
  | some lbs =>
    let logical_block_size := lbs % U64
    let offsetU := intToUsize offset
    let offset_aligned_down := round_down offsetU logical_block_size
    let offset_aligned_up := round_up offsetU logical_block_size
    let total_length := totalLength iovecs
    let e := (offsetU + total_length) % U64
    let end_aligned_down := round_down e logical_block_size
    let end_aligned_up := round_up e logical_block_size
    let header1_len := usizeSub offsetU offset_aligned_down
    let header2_len := usizeSub offset_aligned_up offsetU
    let headerCall := Event.preadv (usizeToOffT offset_aligned_down)
      [header1_len, header2_len]
    if headerRes < 0 then
      ([headerCall], Except.error AsyncIoError.ReadVectored)
    else
      let footer1_len := usizeSub e end_aligned_down
      let footer2_len := usizeSub end_aligned_up e
      let footerCall := Event.preadv (usizeToOffT end_aligned_down)
        [footer1_len, footer2_len]
      if footerRes < 0 then
        ([headerCall, footerCall], Except.error AsyncIoError.ReadVectored)
      else
        let lens := header1_len :: (iovecs.map List.length ++ [footer2_len])
        let writeCall := Event.pwritev (usizeToOffT offset_aligned_down) lens
        if writeRes < 0 then
          ([headerCall, footerCall, writeCall],
            Except.error AsyncIoError.WriteVectored)
        else
          let entry := (user_data,
            toI32 (usizeSub writeRes.toNat ((header1_len + footer2_len) % U64)))
          ([headerCall, footerCall, writeCall,
            Event.pushed entry, Event.signaled 1],
            Except.ok { s with
              completion_list := s.completion_list ++ [entry],
              eventfd := s.eventfd + 1 })
  | none =>
    let call := Event.pwritev offset (iovecs.map List.length)
    if writeRes < 0 then
      ([call], Except.error AsyncIoError.WriteVectored)
    else
      let entry := (user_data, toI32 writeRes.toNat)
      ([call, Event.pushed entry, Event.signaled 1],
        Except.ok { s with
          completion_list := s.completion_list ++ [entry],
          eventfd := s.eventfd + 1 })

/-- `RawFileSync::fsync`. `res` is the return value of the `fsync`
syscall (a `c_int`, pushed verbatim as the completion result). -/
def fsyncOp (s : RawFileSync) (user_data : Option Nat) (res : Int) :
    List Event × Except AsyncIoError RawFileSync :=
  if res < 0 then
    ([Event.fsyncCall], Except.error AsyncIoError.Fsync)
  else
    match user_data with
    | some tag =>
      let entry := (tag, res)
      ([Event.fsyncCall, Event.pushed entry, Event.signaled 1],
        Except.ok { s with
          completion_list := s.completion_list ++ [entry],
          eventfd := s.eventfd + 1 })
    | none => ([Event.fsyncCall], Except.ok s)

/-- `RawFileSync::next_completed_request`: pops the front of the
completion queue, returning the entry together with the updated state. -/
def next_completed_request (s : RawFileSync) :
    Option ((Nat × Int) × RawFileSync) :=
  match s.completion_list with
  | [] => none
  | x :: rest => some (x, { s with completion_list := rest })

/-- The backing file's bytes, by offset. -/
def Disk : Type := Nat → Nat

/-- The bytes a `preadv` deposits into a buffer of length `len` placed at
file offset `off`. -/
def diskRead (d : Disk) (off len : Nat) : List Nat :=
  (List.range len).map fun i => d (off + i)

/-- The file after a `pwritev` stores `data` at offset `off`. -/
def diskWrite (d : Disk) (off : Nat) (data : List Nat) : Disk :=
  fun a => if h : off ≤ a ∧ a - off < data.length
    then data.get ⟨a - off, h.2⟩ else d a

/-- Content-level embedding of the aligned path of
`RawFileSync::write_vectored` (`logical_block_size = Some lbs`): the same
control flow as `write_vectored`, with the two boundary `preadv` calls
filling their buffers from the disk and the final `pwritev` storing its
gathered buffers (`[header1, ...iovecs, footer2]`) to the disk. The three
syscalls are modelled as fully succeeding, each returning the total length
it was given. Returns the event trace, the updated engine state and the
updated disk. -/
def write_vectored_disk (s : RawFileSync) (d : Disk) (offset : Int)
    (iovecs : List Iovec) (user_data : Nat) (lbs : Nat) :
    List Event × RawFileSync × Disk :=
  let logical_block_size := lbs % U64
  let offsetU := intToUsize offset
  let offset_aligned_down := round_down offsetU logical_block_size
  let offset_aligned_up := round_up offsetU logical_block_size
  let total_length := totalLength iovecs
  let e := (offsetU + total_length) % U64
  let end_aligned_down := round_down e logical_block_size
  let end_aligned_up := round_up e logical_block_size
  let header1_len := usizeSub offsetU offset_aligned_down
  let header2_len := usizeSub offset_aligned_up offsetU
  let header1 : Iovec := diskRead d offset_aligned_down header1_len
  let headerCall := Event.preadv (usizeToOffT offset_aligned_down)
    [header1_len, header2_len]
  let footer1_len := usizeSub e end_aligned_down
  let footer2_len := usizeSub end_aligned_up e
  let footer2 : Iovec := diskRead d (end_aligned_down + footer1_len) footer2_len
  let footerCall := Event.preadv (usizeToOffT end_aligned_down)
    [footer1_len, footer2_len]
  let wiovecs : List Iovec := header1 :: (iovecs ++ [footer2])
  let writeCall := Event.pwritev (usizeToOffT offset_aligned_down)
    (wiovecs.map List.length)
  let writeRes := header1_len + sumLens iovecs + footer2_len
  let entry := (user_data,
    toI32 (usizeSub writeRes ((header1_len + footer2_len) % U64)))
  ([headerCall, footerCall, writeCall, Event.pushed entry, Event.signaled 1],
    { s with completion_list := s.completion_list ++ [entry],
             eventfd := s.eventfd + 1 },
    diskWrite d offset_aligned_down wiovecs.flatten)

/-- `DiskTopology` (declared outside `raw_sync.rs`): the geometry fields
named by the design's `StorageTopology`. -/
structure DiskTopology : Type where
  logical_block_size : Nat
  physical_block_size : Nat
  minimum_io_size : Nat
  optimal_io_size : Nat
deriving DecidableEq, Repr

/-- Modelled from the spec: `DiskTopology::default`, the hard-coded default
topology substituted when probing fails. The spec fixes no particular
values, so a representative constant is used; no verified property depends
on the values. -/
def DiskTopology.default : DiskTopology :=
  { logical_block_size := 512, physical_block_size := 512,
    minimum_io_size := 512, optimal_io_size := 512 }

/-- The state of `RawFileDiskSync`: the owned file (its descriptor) and the
optional logical block size. -/
structure RawFileDiskSync : Type where
  fd : Int
  logical_block_size : Option Nat
deriving DecidableEq, Repr

/-- `RawFileDiskSync::new`. -/
def RawFileDiskSync.new (fd : Int) (logical_block_size : Option Nat) :
    RawFileDiskSync :=
  { fd := fd, logical_block_size := logical_block_size }

/-- The error kinds of `DiskFileError`. -/
inductive DiskFileError : Type where
  | Size : DiskFileError
deriving DecidableEq, Repr

/-- `RawFileDiskSync::topology`. `probeResult` is the outcome of
`DiskTopology::probe` (declared outside `raw_sync.rs`): `some t` on
success, `none` on failure. On failure the default topology is
substituted; then, when an explicit logical block size is configured, it
replaces the `logical_block_size` field of the result. -/
def topology (s : RawFileDiskSync) (probeResult : Option DiskTopology) :
    DiskTopology :=
  let t := match probeResult with
    | some t => t
    | none => DiskTopology.default
  match s.logical_block_size with
  | some logical_block_size => { t with logical_block_size := logical_block_size }
  | none => t

/-- `RawFileDiskSync::new_async_io`. `ringDepth` is the unused queue-depth
hint; `eventfdOk` models whether the `EventFd::new` inside
`RawFileSync::new` succeeds (`none` models the panic on failure). The
source always takes the `Ok` branch. -/
def new_async_io (s : RawFileDiskSync) (_ring_depth : Nat) (eventfdOk : Bool) :
    Option (Except DiskFileError RawFileSync) :=
  (RawFileSync.new s.fd s.logical_block_size eventfdOk).map Except.ok

/-- One submission to the engine, bundling the operation's arguments with
the return values of the syscalls it will issue. -/
inductive Op : Type where
  | read (offset : Int) (iovecs : List Iovec) (tag : Nat) (res : Int) : Op
  | write (offset : Int) (iovecs : List Iovec) (tag : Nat)
      (headerRes footerRes writeRes : Int) : Op
  | flush (tag : Option Nat) (res : Int) : Op
deriving Repr

/-- Run one submission against the engine state. -/
def runOp (s : RawFileSync) (op : Op) :
    List Event × Except AsyncIoError RawFileSync :=
  match op with
  | Op.read offset iovecs tag res => read_vectored s offset iovecs tag res
  | Op.write offset iovecs tag r1 r2 r3 =>
      write_vectored s offset iovecs tag r1 r2 r3
  | Op.flush tag res => fsyncOp s tag res

/-- Run a sequence of submissions; `none` as soon as one returns an
error. -/
def runOps (s : RawFileSync) (ops : List Op) : Option RawFileSync :=
  match ops with
  | [] => some s
  | op :: rest =>
    match (runOp s op).2 with
    | Except.error _ => none
    | Except.ok s2 => runOps s2 rest

/-- The completion entries one submission pushes when it succeeds, as a
function of the operation and the configured logical block size (they do
not depend on any other part of the engine state). -/
def expectedEntries (lbsOpt : Option Nat) (op : Op) : List (Nat × Int) :=
  match op with
  | Op.read offset iovecs tag res =>
    match lbsOpt with
    | some lbs =>
      let logical_block_size := lbs % U64
      let offsetU := intToUsize offset
      let header_len := usizeSub offsetU (round_down offsetU logical_block_size)
      let e := (offsetU + totalLength iovecs) % U64
      let footer_len := usizeSub (round_up e logical_block_size) e
      [(tag, toI32 (usizeSub res.toNat ((header_len + footer_len) % U64)))]
    | none => [(tag, toI32 res.toNat)]
  | Op.write offset iovecs tag _ _ writeRes =>
    match lbsOpt with
    | some lbs =>
      let logical_block_size := lbs % U64
      let offsetU := intToUsize offset
      let header1_len :=
        usizeSub offsetU (round_down offsetU logical_block_size)
      let e := (offsetU + totalLength iovecs) % U64
      let footer2_len := usizeSub (round_up e logical_block_size) e
      [(tag, toI32 (usizeSub writeRes.toNat ((header1_len + footer2_len) % U64)))]
    | none => [(tag, toI32 writeRes.toNat)]
  | Op.flush tag res =>
    match tag with
    | some t => [(t, res)]
    | none => []

/-- The completion entries a sequence of successful submissions pushes, in
submission order. -/
def expectedCompletions (lbsOpt : Option Nat) (ops : List Op) :
    List (Nat × Int) :=
  (ops.map (expectedEntries lbsOpt)).flatten

/-- Whether an event acts on the completion queue or the notifier. -/
def isQueueEvent (ev : Event) : Bool :=
  match ev with
  | Event.pushed _ => true
  | Event.signaled _ => true
  | _ => false

/-- The completion entries pushed in an event trace, in order. -/
def pushedEntries (l : List Event) : List (Nat × Int) :=
  l.filterMap fun ev => match ev with
    | Event.pushed p => some p
    | _ => none

/-- Total notifier increment in an event trace. -/
def signalCount (l : List Event) : Nat :=
  (l.filterMap fun ev => match ev with
    | Event.signaled n => some n
    | _ => none).sum

/-- The queue/notifier events of a trace are exactly one `pushed` per
entry, each immediately followed by its `signaled 1`: every push is
accompanied by exactly one increment of 1, the push strictly precedes its
increment, and there is no unpaired push or signal. -/
def wellPaired (l : List Event) : Prop :=
  l.filter isQueueEvent =
    (pushedEntries l).flatMap fun p => [Event.pushed p, Event.signaled 1]

/-- Equality of `Except` results is decidable when both components are. -/
instance exceptDecEq {ε α : Type} [DecidableEq ε] [DecidableEq α] :
    DecidableEq (Except ε α) := fun a b =>
  match a, b with
  | Except.error x, Except.error y =>
    if h : x = y then isTrue (congrArg Except.error h)
    else isFalse fun hc => h (by cases hc; rfl)
  | Except.ok x, Except.ok y =>
    if h : x = y then isTrue (congrArg Except.ok h)
    else isFalse fun hc => h (by cases hc; rfl)
  | Except.error _, Except.ok _ => isFalse fun hc => Except.noConfusion hc
  | Except.ok _, Except.error _ => isFalse fun hc => Except.noConfusion hc

/-! Arithmetic facts about the rounding helpers and the machine-integer
casts, under the no-overflow side conditions the verified properties
assume. -/

theorem round_down_eq_sub_mod (x a : Nat) : round_down x a = x - x % a := by
  unfold round_down
  exact Nat.eq_sub_of_add_eq (Nat.div_add_mod' x a)

theorem round_down_le (x a : Nat) : round_down x a ≤ x :=
  Nat.div_mul_le_self x a

theorem lt_round_down_add (x a : Nat) (h : 0 < a) :
    x < round_down x a + a := by
  rw [round_down_eq_sub_mod]
  have h1 : x % a < a := Nat.mod_lt x h
  have h2 : x % a ≤ x := Nat.mod_le x a
  omega

theorem dvd_round_down (x a : Nat) : a ∣ round_down x a :=
  Dvd.dvd.mul_left (dvd_refl a) (x / a)

theorem round_down_of_dvd (x a : Nat) (h : a ∣ x) : round_down x a = x :=
  Nat.div_mul_cancel h

theorem round_up_eq_sub_mod (x a : Nat) (hb : x + a ≤ U64) (h1 : 1 ≤ x + a) :
    round_up x a = (x + a - 1) - (x + a - 1) % a := by
  unfold round_up
  rw [Nat.mod_eq_of_lt (by omega)]
  exact Nat.eq_sub_of_add_eq (Nat.div_add_mod' (x + a - 1) a)

theorem le_round_up (x a : Nat) (h : 0 < a) (hb : x + a ≤ U64) :
    x ≤ round_up x a := by
  rw [round_up_eq_sub_mod x a hb (by omega)]
  have h1 : (x + a - 1) % a < a := Nat.mod_lt _ h
  omega

theorem round_up_lt (x a : Nat) (h : 0 < a) (hb : x + a ≤ U64) :
    round_up x a < x + a := by
  rw [round_up_eq_sub_mod x a hb (by omega)]
  omega

theorem dvd_round_up (x a : Nat) : a ∣ round_up x a :=
  Dvd.dvd.mul_left (dvd_refl a) _

theorem round_up_of_dvd (x a : Nat) (h : 0 < a) (hb : x + a ≤ U64)
    (hd : a ∣ x) : round_up x a = x := by
  rw [round_up_eq_sub_mod x a hb (by omega)]
  have hx0 : x % a = 0 := Nat.dvd_iff_mod_eq_zero.mp hd
  have hlt : (a - 1) % a = a - 1 := Nat.mod_eq_of_lt (by omega)
  have h2 : x + a - 1 = x + (a - 1) := by omega
  rw [h2, Nat.add_mod, hx0, hlt]
  simp only [Nat.zero_add, hlt]
  omega

theorem usizeSub_eq (a b : Nat) (hb : b ≤ a) (ha : a < U64) :
    usizeSub a b = a - b := by
  unfold usizeSub
  have h1 : a + U64 - b = (a - b) + U64 := by omega
  rw [h1, Nat.add_mod_right, Nat.mod_eq_of_lt (by omega)]

theorem intToUsize_eq (o : Int) (h0 : 0 ≤ o) (h1 : o < (U64 : Nat)) :
    intToUsize o = o.toNat := by
  unfold intToUsize
  rw [Int.emod_eq_of_lt h0 (by exact_mod_cast h1)]

theorem usizeToOffT_eq (n : Nat) (h : n < 2 ^ 63) : usizeToOffT n = (n : Int) := by
  unfold usizeToOffT
  rw [if_pos h]

theorem toI32_eq (n : Nat) (h : n < 2 ^ 31) : toI32 n = (n : Int) := by
  unfold toI32
  have h2 : n % U32 = n := Nat.mod_eq_of_lt (by unfold U32; omega)
  rw [h2, if_pos h]

theorem totalLength_aux (iovecs : List Iovec) (acc : Nat)
    (h : acc + sumLens iovecs < U64) :
    iovecs.foldl (fun acc e => (acc + e.length) % U64) acc
      = acc + sumLens iovecs := by
  induction iovecs generalizing acc with
  | nil => simp [sumLens]
  | cons x xs ih =>
    have hs : sumLens (x :: xs) = x.length + sumLens xs := by
      simp [sumLens]
    rw [List.foldl_cons]
    have h1 : (acc + x.length) % U64 = acc + x.length :=
      Nat.mod_eq_of_lt (by omega)
    rw [h1, ih (acc + x.length) (by omega)]
    omega

theorem totalLength_eq (iovecs : List Iovec) (h : sumLens iovecs < U64) :
    totalLength iovecs = sumLens iovecs := by
  unfold totalLength
  rw [totalLength_aux iovecs 0 (by omega)]
  omega

theorem U64_eq : U64 = 2 ^ 64 := rfl

/-- C1: for every read submitted with a configured logical block size `lbs`,
the engine issues one positioned vectored read at `round_down offset lbs`
over `[head, original descriptors, tail]` with `head` of length
`offset - round_down offset lbs` and `tail` of length
`round_up (offset + totalLen) lbs - (offset + totalLen)`, and on success
pushes the completion `(tag, res - head - tail)` and signals once; when
`offset` and `offset + totalLen` fall on sector boundaries, head and tail
have length 0 and the reported length equals the syscall's return value. -/
theorem read_submission_aligned (s : RawFileSync) (lbs : Nat) (offset : Int)
    (iovecs : List Iovec) (tag : Nat) (res : Int) (oU e hl tl : Nat)
    (hlbs : s.logical_block_size = some lbs)
    (hpos : 0 < lbs)
    (hoff : 0 ≤ offset)
    (hoU : oU = offset.toNat)
    (he : e = oU + sumLens iovecs)
    (hhl : hl = oU - round_down oU lbs)
    (htl : tl = round_up e lbs - e)
    (hbound : e + lbs ≤ 2 ^ 62)
    (hres : 0 ≤ res)
    (hlo : hl + tl ≤ res.toNat)
    (hhi : res.toNat < hl + tl + 2 ^ 31) :
    read_vectored s offset iovecs tag res =
      ([Event.preadv (round_down oU lbs)
          (hl :: (iovecs.map List.length ++ [tl])),
        Event.pushed (tag, res - hl - tl), Event.signaled 1],
       Except.ok { s with
         completion_list := s.completion_list ++ [(tag, res - hl - tl)],
         eventfd := s.eventfd + 1 })
    ∧ (lbs ∣ oU → lbs ∣ e → hl = 0 ∧ tl = 0 ∧ res - (hl : Int) - tl = res) := by
  have hU : U64 = 2 ^ 64 := U64_eq
  have hlbsU : lbs % U64 = lbs := Nat.mod_eq_of_lt (by omega)
  have hoffI : offset = (oU : Int) := by
    rw [hoU, Int.toNat_of_nonneg hoff]
  have hoffeq : intToUsize offset = oU := by
    rw [intToUsize_eq offset hoff (by rw [hoffI]; exact_mod_cast (by omega : oU < U64)), hoU]
  have htot : totalLength iovecs = sumLens iovecs :=
    totalLength_eq iovecs (by omega)
  have hmod1 : (oU + sumLens iovecs) % U64 = e := by
    rw [← he]; exact Nat.mod_eq_of_lt (by omega)
  have hrdle : round_down oU lbs ≤ oU := round_down_le oU lbs
  have hh : usizeSub oU (round_down oU lbs) = hl := by
    rw [usizeSub_eq _ _ hrdle (by omega), hhl]
  have hrub : e + lbs ≤ U64 := by omega
  have hrule : e ≤ round_up e lbs := le_round_up e lbs hpos hrub
  have hrult : round_up e lbs < e + lbs := round_up_lt e lbs hpos hrub
  have hf : usizeSub (round_up e lbs) e = tl := by
    rw [usizeSub_eq _ _ hrule (by omega), htl]
  have hofft : usizeToOffT (round_down oU lbs) = (round_down oU lbs : Int) :=
    usizeToOffT_eq _ (by omega)
  have hiflt : ¬ res < 0 := not_lt.mpr hres
  have hhlb : hl < lbs := by
    have := lt_round_down_add oU lbs hpos
    omega
  have htlb : tl < lbs := by omega
  have hmod2 : (hl + tl) % U64 = hl + tl := Nat.mod_eq_of_lt (by omega)
  have hsub : usizeSub res.toNat (hl + tl) = res.toNat - (hl + tl) :=
    usizeSub_eq _ _ hlo (by omega)
  have htoi : toI32 (res.toNat - (hl + tl)) = ((res.toNat - (hl + tl) : Nat) : Int) :=
    toI32_eq _ (by omega)
  have hcast : ((res.toNat - (hl + tl) : Nat) : Int) = res - hl - tl := by
    have hresI : res = (res.toNat : Int) := (Int.toNat_of_nonneg hres).symm
    rw [hresI]
    omega
  constructor
  · simp only [read_vectored, hlbs, hlbsU, hoffeq, htot, hmod1, hh, hf, hofft,
      hmod2, hsub, htoi, hcast, if_neg hiflt]
  · intro hd1 hd2
    have h1 : round_down oU lbs = oU := round_down_of_dvd oU lbs hd1
    have h2 : round_up e lbs = e := round_up_of_dvd e lbs hpos hrub hd2
    refine ⟨by omega, by omega, ?_⟩
    have hhl0 : hl = 0 := by omega
    have htl0 : tl = 0 := by omega
    rw [hhl0, htl0]
    simp

/-- Witness for C1: logical block size 512, a 100-byte read at offset 50,
syscall returning 512; the completion reports 512 - 50 - 362 = 100 bytes. -/
theorem read_submission_aligned_witness :
    (0 : Nat) < 512 ∧
    (read_vectored ⟨3, 0, [], some 512⟩ 50 [List.replicate 100 0] 7 512).2 =
      Except.ok ⟨3, 1, [(7, 100)], some 512⟩ :=
  ⟨by decide, by
    have h := read_submission_aligned ⟨3, 0, [], some 512⟩ 512 50
      [List.replicate 100 0] 7 512 50 150 50 362 rfl (by decide) (by decide)
      (by decide) (by decide) (by decide) (by decide) (by decide) (by decide)
      (by decide) (by decide)
    rw [h.1]
    decide⟩

theorem diskRead_length (d : Disk) (off len : Nat) :
    (diskRead d off len).length = len := by
  simp [diskRead]

theorem diskRead_get (d : Disk) (off len i : Nat)
    (h : i < (diskRead d off len).length) :
    (diskRead d off len).get ⟨i, h⟩ = d (off + i) := by
  simp [diskRead]

theorem diskRead_getElem (d : Disk) (off len i : Nat)
    (h : i < (diskRead d off len).length) :
    (diskRead d off len)[i] = d (off + i) := by
  simp [diskRead]

theorem diskWrite_apply_lt (d : Disk) (off : Nat) (data : List Nat) (a : Nat)
    (h : a < off) : diskWrite d off data a = d a := by
  unfold diskWrite
  rw [dif_neg (by omega)]

theorem diskWrite_apply_ge (d : Disk) (off : Nat) (data : List Nat) (a : Nat)
    (h : off + data.length ≤ a) : diskWrite d off data a = d a := by
  unfold diskWrite
  rw [dif_neg (by omega)]

theorem diskWrite_apply_in (d : Disk) (off : Nat) (data : List Nat) (a : Nat)
    (h1 : off ≤ a) (h2 : a - off < data.length) :
    diskWrite d off data a = data.get ⟨a - off, h2⟩ := by
  unfold diskWrite
  rw [dif_pos ⟨h1, h2⟩]

/-- Storing `[old bytes of [ad, oU), new payload, old bytes of [e, e+pa)]`
at offset `ad` leaves every byte outside `[oU, e)` unchanged. -/
theorem diskWrite_boundary_preserved (d : Disk) (ad oU e pa : Nat)
    (mid : List Nat) (had : ad ≤ oU) (hoe : oU ≤ e)
    (hmid : mid.length = e - oU) (a : Nat) (ha : a < oU ∨ e ≤ a) :
    diskWrite d ad (diskRead d ad (oU - ad) ++ mid ++ diskRead d e pa) a
      = d a := by
  have hlen : (diskRead d ad (oU - ad) ++ mid ++ diskRead d e pa).length
      = (e - ad) + pa := by
    simp [diskRead_length]
    omega
  by_cases hlt : a < ad
  · exact diskWrite_apply_lt _ _ _ _ hlt
  · by_cases hhi : (e - ad) + pa ≤ a - ad
    · exact diskWrite_apply_ge _ _ _ _ (by omega)
    · have h1 : ad ≤ a := by omega
      have h2 : a - ad < (diskRead d ad (oU - ad) ++ mid ++ diskRead d e pa).length := by
        omega
      rw [diskWrite_apply_in _ _ _ _ h1 h2, List.get_eq_getElem]
      rcases ha with ha | ha
      · have hin : a - ad < (diskRead d ad (oU - ad) ++ mid).length := by
          simp [diskRead_length]; omega
        rw [List.getElem_append_left hin]
        have hin2 : a - ad < (diskRead d ad (oU - ad)).length := by
          rw [diskRead_length]; omega
        rw [List.getElem_append_left hin2, diskRead_getElem]
        congr 1
        omega
      · have hout : (diskRead d ad (oU - ad) ++ mid).length ≤ a - ad := by
          simp [diskRead_length]; omega
        rw [List.getElem_append_right hout, diskRead_getElem]
        congr 1
        simp [diskRead_length, hmid]
        omega

/-- C2: for every write submitted with a configured logical block size
`lbs`, after fetching the preserve-before bytes `[round_down offset, offset)`
and preserve-after bytes `[end, round_up end)` from disk, the engine issues
exactly one positioned vectored write at `round_down offset lbs` covering
`[preserve-before, original descriptors, preserve-after]`, so bytes outside
`[offset, end)` but inside the first and last touched sector are preserved;
the completion `(tag, written - pb - pa)` (here `totalLen` under full
success) is pushed and the notifier signaled once. -/
theorem write_submission_aligned (s : RawFileSync) (d : Disk) (lbs : Nat)
    (offset : Int) (iovecs : List Iovec) (tag : Nat) (oU e pb pa : Nat)
    (_hlbs : s.logical_block_size = some lbs)
    (hpos : 0 < lbs)
    (hoff : 0 ≤ offset)
    (hoU : oU = offset.toNat)
    (he : e = oU + sumLens iovecs)
    (hpb : pb = oU - round_down oU lbs)
    (hpa : pa = round_up e lbs - e)
    (hbound : e + lbs ≤ 2 ^ 62)
    (hsum31 : sumLens iovecs < 2 ^ 31) :
    write_vectored_disk s d offset iovecs tag lbs =
      ([Event.preadv (round_down oU lbs) [pb, round_up oU lbs - oU],
        Event.preadv (round_down e lbs) [e - round_down e lbs, pa],
        Event.pwritev (round_down oU lbs)
          (pb :: (iovecs.map List.length ++ [pa])),
        Event.pushed (tag, (sumLens iovecs : Int)), Event.signaled 1],
       { s with
         completion_list := s.completion_list ++ [(tag, (sumLens iovecs : Int))],
         eventfd := s.eventfd + 1 },
       diskWrite d (round_down oU lbs)
         (diskRead d (round_down oU lbs) pb ++
           (iovecs.flatten ++ diskRead d e pa)))
    ∧ ∀ a : Nat, a < oU ∨ e ≤ a →
        (write_vectored_disk s d offset iovecs tag lbs).2.2 a = d a := by
  have hU : U64 = 2 ^ 64 := U64_eq
  have hlbsU : lbs % U64 = lbs := Nat.mod_eq_of_lt (by omega)
  have hoffI : offset = (oU : Int) := by rw [hoU, Int.toNat_of_nonneg hoff]
  have hoffeq : intToUsize offset = oU := by
    rw [intToUsize_eq offset hoff
      (by rw [hoffI]; exact_mod_cast (by omega : oU < U64)), hoU]
  have htot : totalLength iovecs = sumLens iovecs :=
    totalLength_eq iovecs (by omega)
  have hmod1 : (oU + sumLens iovecs) % U64 = e := by
    rw [← he]; exact Nat.mod_eq_of_lt (by omega)
  have hrdle : round_down oU lbs ≤ oU := round_down_le oU lbs
  have hrdle2 : round_down e lbs ≤ e := round_down_le e lbs
  have hb1 : oU + lbs ≤ U64 := by omega
  have hb2 : e + lbs ≤ U64 := by omega
  have hru1 : oU ≤ round_up oU lbs := le_round_up oU lbs hpos hb1
  have hru1lt : round_up oU lbs < oU + lbs := round_up_lt oU lbs hpos hb1
  have hru2 : e ≤ round_up e lbs := le_round_up e lbs hpos hb2
  have hru2lt : round_up e lbs < e + lbs := round_up_lt e lbs hpos hb2
  have hh1 : usizeSub oU (round_down oU lbs) = pb := by
    rw [usizeSub_eq _ _ hrdle (by omega), hpb]
  have hh2 : usizeSub (round_up oU lbs) oU = round_up oU lbs - oU :=
    usizeSub_eq _ _ hru1 (by omega)
  have hf1 : usizeSub e (round_down e lbs) = e - round_down e lbs :=
    usizeSub_eq _ _ hrdle2 (by omega)
  have hf2 : usizeSub (round_up e lbs) e = pa := by
    rw [usizeSub_eq _ _ hru2 (by omega), hpa]
  have hbase : round_down e lbs + (e - round_down e lbs) = e := by omega
  have hofft1 : usizeToOffT (round_down oU lbs) = (round_down oU lbs : Int) :=
    usizeToOffT_eq _ (by omega)
  have hofft2 : usizeToOffT (round_down e lbs) = (round_down e lbs : Int) :=
    usizeToOffT_eq _ (by omega)
  have hpblbs : pb < lbs := by
    have := lt_round_down_add oU lbs hpos
    omega
  have hpalbs : pa < lbs := by omega
  have hmodpp : (pb + pa) % U64 = pb + pa := Nat.mod_eq_of_lt (by omega)
  have hws : usizeSub (pb + sumLens iovecs + pa) (pb + pa) = sumLens iovecs := by
    rw [usizeSub_eq _ _ (by omega) (by omega)]
    omega
  have htoi : toI32 (sumLens iovecs) = (sumLens iovecs : Int) :=
    toI32_eq _ hsum31
  have hmain : write_vectored_disk s d offset iovecs tag lbs =
      ([Event.preadv (round_down oU lbs) [pb, round_up oU lbs - oU],
        Event.preadv (round_down e lbs) [e - round_down e lbs, pa],
        Event.pwritev (round_down oU lbs)
          (pb :: (iovecs.map List.length ++ [pa])),
        Event.pushed (tag, (sumLens iovecs : Int)), Event.signaled 1],
       { s with
         completion_list := s.completion_list ++ [(tag, (sumLens iovecs : Int))],
         eventfd := s.eventfd + 1 },
       diskWrite d (round_down oU lbs)
         (diskRead d (round_down oU lbs) pb ++
           (iovecs.flatten ++ diskRead d e pa))) := by
    simp only [write_vectored_disk, hlbsU, hoffeq, htot, hmod1, hh1, hh2, hf1,
      hf2, hbase, hofft1, hofft2, hmodpp, hws, htoi, diskRead_length,
      List.map_cons, List.map_append, List.map_nil, List.flatten_cons,
      List.flatten_append, List.flatten_nil, List.append_nil,
      List.append_assoc]
  refine ⟨hmain, ?_⟩
  intro a ha
  rw [hmain]
  show diskWrite d (round_down oU lbs)
    (diskRead d (round_down oU lbs) pb ++
      (iovecs.flatten ++ diskRead d e pa)) a = d a
  rw [← List.append_assoc, hpb]
  refine diskWrite_boundary_preserved d (round_down oU lbs) oU e pa
    iovecs.flatten hrdle (by omega) ?_ a ha
  rw [List.length_flatten]
  have hsl : sumLens iovecs = (iovecs.map List.length).sum := rfl
  omega

/-- Witness for C2: logical block size 512, a 100-byte write at offset 50
over the disk `a ↦ (a + 5) % 251`; bytes 10 (before the write) and 200
(after the write, same sector) keep their original values 15 and 205. -/
theorem write_submission_aligned_witness :
    (0 : Nat) < 512 ∧
    (write_vectored_disk ⟨3, 0, [], some 512⟩ (fun a => (a + 5) % 251) 50
        [List.replicate 100 7] 9 512).2.2 10 = 15 ∧
    (write_vectored_disk ⟨3, 0, [], some 512⟩ (fun a => (a + 5) % 251) 50
        [List.replicate 100 7] 9 512).2.2 200 = 205 := by
  have h := (write_submission_aligned ⟨3, 0, [], some 512⟩
    (fun a => (a + 5) % 251) 512 50 [List.replicate 100 7] 9 50 150 50 362
    rfl (by decide) (by decide) (by decide) (by decide) (by decide)
    (by decide) (by decide) (by decide)).2
  exact ⟨by decide, (h 10 (by decide)).trans (by decide),
    (h 200 (by decide)).trans (by decide)⟩

/-- C3 counterexample: a failing boundary-preservation read inside the
aligned write path surfaces as `ReadVectored` (the read error kind), not
`WriteVectored` as the claim states. -/
theorem write_boundary_read_error_counterexample :
    (write_vectored ⟨3, 0, [], some 512⟩ 50 [[1, 2, 3]] 9 (-1) 0 0).2 =
      Except.error AsyncIoError.ReadVectored ∧
    AsyncIoError.ReadVectored ≠ AsyncIoError.WriteVectored := by
  decide

/-- C3 (amended): every submission that fails at the OS level returns the
typed error of the failing syscall — ReadError for the read path, ReadError
(not WriteError) for either boundary-preservation read inside the aligned
write path, WriteError for the write syscall itself, FlushError for flush —
and no completion-queue entry and no notifier signal is produced. -/
theorem submit_error_spec (r : Int) (hr : r < 0) :
    (∀ (s : RawFileSync) (offset : Int) (iovecs : List Iovec) (tag : Nat),
      (read_vectored s offset iovecs tag r).2 =
        Except.error AsyncIoError.ReadVectored ∧
      (read_vectored s offset iovecs tag r).1.filter isQueueEvent = [])
    ∧ (∀ (s : RawFileSync) (offset : Int) (iovecs : List Iovec) (tag : Nat)
        (r1 r2 : Int), s.logical_block_size = none →
      (write_vectored s offset iovecs tag r1 r2 r).2 =
        Except.error AsyncIoError.WriteVectored ∧
      (write_vectored s offset iovecs tag r1 r2 r).1.filter isQueueEvent = [])
    ∧ (∀ (s : RawFileSync) (lbs : Nat) (offset : Int) (iovecs : List Iovec)
        (tag : Nat) (r2 r3 : Int), s.logical_block_size = some lbs →
      (write_vectored s offset iovecs tag r r2 r3).2 =
        Except.error AsyncIoError.ReadVectored ∧
      (write_vectored s offset iovecs tag r r2 r3).1.filter isQueueEvent = [])
    ∧ (∀ (s : RawFileSync) (lbs : Nat) (offset : Int) (iovecs : List Iovec)
        (tag : Nat) (r1 r3 : Int), s.logical_block_size = some lbs → 0 ≤ r1 →
      (write_vectored s offset iovecs tag r1 r r3).2 =
        Except.error AsyncIoError.ReadVectored ∧
      (write_vectored s offset iovecs tag r1 r r3).1.filter isQueueEvent = [])
    ∧ (∀ (s : RawFileSync) (lbs : Nat) (offset : Int) (iovecs : List Iovec)
        (tag : Nat) (r1 r2 : Int), s.logical_block_size = some lbs →
        0 ≤ r1 → 0 ≤ r2 →
      (write_vectored s offset iovecs tag r1 r2 r).2 =
        Except.error AsyncIoError.WriteVectored ∧
      (write_vectored s offset iovecs tag r1 r2 r).1.filter isQueueEvent = [])
    ∧ (∀ (s : RawFileSync) (tag : Option Nat),
      (fsyncOp s tag r).2 = Except.error AsyncIoError.Fsync ∧
      (fsyncOp s tag r).1.filter isQueueEvent = []) := by
  refine ⟨?_, ?_, ?_, ?_, ?_, ?_⟩
  · intro s offset iovecs tag
    cases hc : s.logical_block_size with
    | none => simp [read_vectored, hc, hr, isQueueEvent]
    | some lbs => simp [read_vectored, hc, hr, isQueueEvent]
  · intro s offset iovecs tag r1 r2 hc
    simp [write_vectored, hc, hr, isQueueEvent]
  · intro s lbs offset iovecs tag r2 r3 hc
    simp [write_vectored, hc, hr, isQueueEvent]
  · intro s lbs offset iovecs tag r1 r3 hc hr1
    simp [write_vectored, hc, hr, not_lt.mpr hr1, isQueueEvent]
  · intro s lbs offset iovecs tag r1 r2 hc hr1 hr2
    simp [write_vectored, hc, hr, not_lt.mpr hr1, not_lt.mpr hr2, isQueueEvent]
  · intro s tag
    simp [fsyncOp, hr, isQueueEvent]

/-- Witness for C3 (amended) at the concrete failing result `-1`: the read
path reports ReadError, a failing boundary read in the aligned write path
reports ReadError, a failing write syscall reports WriteError, flush
reports FlushError, and no queue or notifier event is emitted. -/
theorem submit_error_spec_witness :
    (-1 : Int) < 0 ∧
    (read_vectored ⟨3, 0, [], none⟩ 50 [[1, 2]] 9 (-1)).2 =
      Except.error AsyncIoError.ReadVectored ∧
    (write_vectored ⟨3, 0, [], some 512⟩ 50 [[1, 2]] 9 7 (-1) 0).2 =
      Except.error AsyncIoError.ReadVectored ∧
    (write_vectored ⟨3, 0, [], some 512⟩ 50 [[1, 2]] 9 7 7 (-1)).2 =
      Except.error AsyncIoError.WriteVectored ∧
    (fsyncOp ⟨3, 0, [], some 512⟩ (some 9) (-1)).2 =
      Except.error AsyncIoError.Fsync ∧
    (write_vectored ⟨3, 0, [], some 512⟩ 50 [[1, 2]] 9 7 7 (-1)).1.filter
      isQueueEvent = [] := by
  have h := submit_error_spec (-1) (by decide)
  exact ⟨by decide,
    (h.1 ⟨3, 0, [], none⟩ 50 [[1, 2]] 9).1,
    (h.2.2.2.1 ⟨3, 0, [], some 512⟩ 512 50 [[1, 2]] 9 7 0 rfl (by decide)).1,
    (h.2.2.2.2.1 ⟨3, 0, [], some 512⟩ 512 50 [[1, 2]] 9 7 7 rfl (by decide)
      (by decide)).1,
    (h.2.2.2.2.2 ⟨3, 0, [], some 512⟩ (some 9)).1,
    (h.2.2.2.2.1 ⟨3, 0, [], some 512⟩ 512 50 [[1, 2]] 9 7 7 rfl (by decide)
      (by decide)).2⟩

theorem runOp_ok (s : RawFileSync) (op : Op) (s2 : RawFileSync)
    (h : (runOp s op).2 = Except.ok s2) :
    s2.completion_list =
      s.completion_list ++ expectedEntries s.logical_block_size op
    ∧ s2.logical_block_size = s.logical_block_size := by
  cases op with
  | read offset iovecs tag res =>
    cases hc : s.logical_block_size with
    | none =>
      by_cases hres : res < 0
      · simp [runOp, read_vectored, hc, hres] at h
      · simp [runOp, read_vectored, hc, hres] at h
        subst h
        simp [expectedEntries, hc]
    | some lbs =>
      by_cases hres : res < 0
      · simp [runOp, read_vectored, hc, hres] at h
      · simp [runOp, read_vectored, hc, hres] at h
        subst h
        simp [expectedEntries, hc]
  | write offset iovecs tag r1 r2 r3 =>
    cases hc : s.logical_block_size with
    | none =>
      by_cases hr3 : r3 < 0
      · simp [runOp, write_vectored, hc, hr3] at h
      · simp [runOp, write_vectored, hc, hr3] at h
        subst h
        simp [expectedEntries, hc]
    | some lbs =>
      by_cases hr1 : r1 < 0
      · simp [runOp, write_vectored, hc, hr1] at h
      · by_cases hr2 : r2 < 0
        · simp [runOp, write_vectored, hc, hr1, hr2] at h
        · by_cases hr3 : r3 < 0
          · simp [runOp, write_vectored, hc, hr1, hr2, hr3] at h
          · simp [runOp, write_vectored, hc, hr1, hr2, hr3] at h
            subst h
            simp [expectedEntries, hc]
  | flush tag res =>
    by_cases hres : res < 0
    · simp [runOp, fsyncOp, hres] at h
    · cases tag with
      | none =>
        simp [runOp, fsyncOp, hres] at h
        subst h
        simp [expectedEntries]
      | some t =>
        simp [runOp, fsyncOp, hres] at h
        subst h
        simp [expectedEntries]

theorem runOps_spec (ops : List Op) : ∀ s s2 : RawFileSync,
    runOps s ops = some s2 →
    s2.completion_list =
      s.completion_list ++ expectedCompletions s.logical_block_size ops
    ∧ s2.logical_block_size = s.logical_block_size := by
  induction ops with
  | nil =>
    intro s s2 h
    simp [runOps] at h
    subst h
    simp [expectedCompletions]
  | cons op rest ih =>
    intro s s2 h
    unfold runOps at h
    cases hop : (runOp s op).2 with
    | error err => rw [hop] at h; simp at h
    | ok smid =>
      rw [hop] at h
      obtain ⟨h1, h2⟩ := runOp_ok s op smid hop
      obtain ⟨h3, h4⟩ := ih smid s2 h
      refine ⟨?_, by rw [h4, h2]⟩
      rw [h3, h1, h2]
      simp [expectedCompletions]

/-- C4: for every sequence of successfully completed read/write/flush
submissions starting from an empty queue, the completion queue afterwards
holds exactly the submissions' `(tag, result)` entries in submission order,
and `next_completed_request` pops the oldest entry when the queue is
non-empty and returns `none` when it is empty. -/
theorem fifo_completions (ops : List Op) (s0 s1 : RawFileSync)
    (h0 : s0.completion_list = [])
    (h1 : runOps s0 ops = some s1) :
    s1.completion_list = expectedCompletions s0.logical_block_size ops
    ∧ (∀ s : RawFileSync, s.completion_list = [] →
        next_completed_request s = none)
    ∧ (∀ (s : RawFileSync) (x : Nat × Int) (rest : List (Nat × Int)),
        s.completion_list = x :: rest →
        next_completed_request s =
          some (x, { s with completion_list := rest })) := by
  refine ⟨?_, ?_, ?_⟩
  · have h := (runOps_spec ops s0 s1 h1).1
    rw [h, h0]
    simp
  · intro s hs
    simp [next_completed_request, hs]
  · intro s x rest hs
    simp [next_completed_request, hs]

/-- Witness for C4: a read, a write and a flush submitted in that order
complete in that order, and polling returns the oldest entry first. -/
theorem fifo_completions_witness :
    runOps ⟨3, 0, [], none⟩
      [Op.read 0 [[1, 2]] 1 2, Op.write 0 [[3]] 2 0 0 1,
       Op.flush (some 3) 0] = some ⟨3, 3, [(1, 2), (2, 1), (3, 0)], none⟩ ∧
    ([(1, 2), (2, 1), (3, 0)] : List (Nat × Int)) =
      expectedCompletions none
        [Op.read 0 [[1, 2]] 1 2, Op.write 0 [[3]] 2 0 0 1,
         Op.flush (some 3) 0] ∧
    next_completed_request ⟨3, 3, [(1, 2), (2, 1), (3, 0)], none⟩ =
      some ((1, 2), ⟨3, 3, [(2, 1), (3, 0)], none⟩) := by
  have h := fifo_completions
    [Op.read 0 [[1, 2]] 1 2, Op.write 0 [[3]] 2 0 0 1, Op.flush (some 3) 0]
    ⟨3, 0, [], none⟩ ⟨3, 3, [(1, 2), (2, 1), (3, 0)], none⟩ rfl (by decide)
  exact ⟨by decide, h.1.symm,
    h.2.2 ⟨3, 3, [(1, 2), (2, 1), (3, 0)], none⟩ (1, 2) [(2, 1), (3, 0)] rfl⟩

/-- C5: in every operation, the queue/notifier events are exactly one push
immediately followed by one `signaled 1` per completed entry (push strictly
before its signal, no unpaired push or signal); on success the queue gains
exactly the pushed entries and the eventfd counter the summed signals, and
on error no queue/notifier event occurs at all. -/
theorem queue_notifier_paired (s : RawFileSync) (op : Op) :
    wellPaired (runOp s op).1
    ∧ (∀ s2 : RawFileSync, (runOp s op).2 = Except.ok s2 →
        s2.completion_list =
          s.completion_list ++ pushedEntries (runOp s op).1
        ∧ s2.eventfd = s.eventfd + signalCount (runOp s op).1)
    ∧ (∀ err : AsyncIoError, (runOp s op).2 = Except.error err →
        (runOp s op).1.filter isQueueEvent = []) := by
  cases op with
  | read offset iovecs tag res =>
    cases hc : s.logical_block_size <;> by_cases hres : res < 0 <;>
      simp [runOp, read_vectored, hc, hres, wellPaired, pushedEntries,
        signalCount, isQueueEvent]
  | write offset iovecs tag r1 r2 r3 =>
    cases hc : s.logical_block_size <;>
      by_cases hr1 : r1 < 0 <;> by_cases hr2 : r2 < 0 <;>
      by_cases hr3 : r3 < 0 <;>
      simp [runOp, write_vectored, hc, hr1, hr2, hr3, wellPaired,
        pushedEntries, signalCount, isQueueEvent]
  | flush tag res =>
    cases tag <;> by_cases hres : res < 0 <;>
      simp [runOp, fsyncOp, hres, wellPaired, pushedEntries, signalCount,
        isQueueEvent]

/-- Witness for C5: a concrete successful aligned read pushes exactly one
entry and signals exactly once, in that order. -/
theorem queue_notifier_paired_witness :
    wellPaired (runOp ⟨3, 2, [(5, 5)], some 512⟩
      (Op.read 50 [List.replicate 100 0] 7 512)).1
    ∧ (runOp ⟨3, 2, [(5, 5)], some 512⟩
        (Op.read 50 [List.replicate 100 0] 7 512)).2 =
      Except.ok ⟨3, 3, [(5, 5), (7, 100)], some 512⟩
    ∧ pushedEntries (runOp ⟨3, 2, [(5, 5)], some 512⟩
        (Op.read 50 [List.replicate 100 0] 7 512)).1 = [(7, 100)]
    ∧ signalCount (runOp ⟨3, 2, [(5, 5)], some 512⟩
        (Op.read 50 [List.replicate 100 0] 7 512)).1 = 1 := by
  have h := queue_notifier_paired ⟨3, 2, [(5, 5)], some 512⟩
    (Op.read 50 [List.replicate 100 0] 7 512)
  exact ⟨h.1, by decide, by decide, by decide⟩

/-- C6: a successful flush with a request tag pushes exactly the entry
`(tag, flush return code)` and signals exactly once; with no tag it pushes
nothing and does not signal; a failing flush returns `FlushError` with
nothing queued. -/
theorem fsync_submission_spec (s : RawFileSync) (tag : Nat) (res : Int) :
    (0 ≤ res → fsyncOp s (some tag) res =
      ([Event.fsyncCall, Event.pushed (tag, res), Event.signaled 1],
       Except.ok { s with
         completion_list := s.completion_list ++ [(tag, res)],
         eventfd := s.eventfd + 1 }))
    ∧ (0 ≤ res → fsyncOp s none res = ([Event.fsyncCall], Except.ok s))
    ∧ (∀ t : Option Nat, res < 0 →
        fsyncOp s t res = ([Event.fsyncCall],
          Except.error AsyncIoError.Fsync)) := by
  refine ⟨fun h => ?_, fun h => ?_, fun t h => ?_⟩
  · simp [fsyncOp, not_lt.mpr h]
  · simp [fsyncOp, not_lt.mpr h]
  · simp [fsyncOp, h]

/-- Witness for C6: a successful flush (`fsync` returning 0) with tag 4
pushes `(4, 0)` and signals once; without a tag it leaves the state
untouched; a failing flush returns `FlushError`. -/
theorem fsync_submission_spec_witness :
    (0 : Int) ≤ 0 ∧
    fsyncOp ⟨3, 0, [], none⟩ (some 4) 0 =
      ([Event.fsyncCall, Event.pushed (4, 0), Event.signaled 1],
       Except.ok ⟨3, 1, [(4, 0)], none⟩) ∧
    fsyncOp ⟨3, 0, [], none⟩ none 0 =
      ([Event.fsyncCall], Except.ok ⟨3, 0, [], none⟩) ∧
    fsyncOp ⟨3, 0, [], none⟩ (some 4) (-1) =
      ([Event.fsyncCall], Except.error AsyncIoError.Fsync) := by
  have h := fsync_submission_spec ⟨3, 0, [], none⟩ 4 0
  have h2 := fsync_submission_spec ⟨3, 0, [], none⟩ 4 (-1)
  exact ⟨by decide, (h.1 (by decide)).trans (by decide),
    h.2.1 (by decide), h2.2.2 (some 4) (by decide)⟩

/-- C7: with no configured logical block size, a read or write issues a
single positioned vectored syscall at the caller's offset over exactly the
caller's descriptors, and the completion carries the syscall's return value
verbatim with the caller's tag unchanged. -/
theorem unaligned_submission (s : RawFileSync) (offset : Int)
    (iovecs : List Iovec) (tag : Nat) (res : Int)
    (hnone : s.logical_block_size = none)
    (h0 : 0 ≤ res) (h31 : res < 2 ^ 31) :
    read_vectored s offset iovecs tag res =
      ([Event.preadv offset (iovecs.map List.length),
        Event.pushed (tag, res), Event.signaled 1],
       Except.ok { s with
         completion_list := s.completion_list ++ [(tag, res)],
         eventfd := s.eventfd + 1 })
    ∧ ∀ r1 r2 : Int, write_vectored s offset iovecs tag r1 r2 res =
      ([Event.pwritev offset (iovecs.map List.length),
        Event.pushed (tag, res), Event.signaled 1],
       Except.ok { s with
         completion_list := s.completion_list ++ [(tag, res)],
         eventfd := s.eventfd + 1 }) := by
  have htn : res.toNat < 2 ^ 31 := by omega
  have hti : toI32 res.toNat = res := by
    rw [toI32_eq res.toNat htn, Int.toNat_of_nonneg h0]
  refine ⟨?_, fun r1 r2 => ?_⟩
  · simp [read_vectored, hnone, not_lt.mpr h0, hti]
  · simp [write_vectored, hnone, not_lt.mpr h0, hti]

/-- Witness for C7: an unaligned 2-byte read at offset 123 with syscall
return 2 completes as `(9, 2)` after a single preadv at offset 123. -/
theorem unaligned_submission_witness :
    (0 : Int) ≤ 2 ∧
    read_vectored ⟨3, 0, [], none⟩ 123 [[1, 2]] 9 2 =
      ([Event.preadv 123 [2], Event.pushed (9, 2), Event.signaled 1],
       Except.ok ⟨3, 1, [(9, 2)], none⟩) ∧
    write_vectored ⟨3, 0, [], none⟩ 123 [[1, 2]] 9 0 0 2 =
      ([Event.pwritev 123 [2], Event.pushed (9, 2), Event.signaled 1],
       Except.ok ⟨3, 1, [(9, 2)], none⟩) := by
  have h := unaligned_submission ⟨3, 0, [], none⟩ 123 [[1, 2]] 9 2 rfl
    (by decide) (by decide)
  exact ⟨by decide, h.1.trans (by decide), (h.2 0 0).trans (by decide)⟩

/-- C8: `topology` is total (it never fails: a failed probe degrades to the
default topology); whenever an explicit logical block size is configured it
overrides the `logical_block_size` field of the probed-or-defaulted
topology, and every other geometry field is taken unchanged from it; with
no override the probed-or-defaulted topology is returned as is. -/
theorem topology_spec (s : RawFileDiskSync) (pr : Option DiskTopology) :
    (s.logical_block_size = none →
      topology s pr = pr.getD DiskTopology.default)
    ∧ (∀ lbs : Nat, s.logical_block_size = some lbs →
        (topology s pr).logical_block_size = lbs
        ∧ (topology s pr).physical_block_size =
            (pr.getD DiskTopology.default).physical_block_size
        ∧ (topology s pr).minimum_io_size =
            (pr.getD DiskTopology.default).minimum_io_size
        ∧ (topology s pr).optimal_io_size =
            (pr.getD DiskTopology.default).optimal_io_size)
    ∧ (pr = none → pr.getD DiskTopology.default = DiskTopology.default) := by
  refine ⟨fun h => ?_, fun lbs h => ?_, fun h => by rw [h]; rfl⟩
  · cases pr <;> simp [topology, h]
  · cases pr <;> simp [topology, h]

/-- Witness for C8: with a configured logical block size of 4096 the
override is applied to a probed topology and to the default (probe-failed)
topology, while the other fields pass through. -/
theorem topology_spec_witness :
    (RawFileDiskSync.mk 3 (some 4096)).logical_block_size = some 4096 ∧
    topology ⟨3, some 4096⟩ (some ⟨512, 4096, 512, 131072⟩) =
      ⟨4096, 4096, 512, 131072⟩ ∧
    topology ⟨3, some 4096⟩ none =
      { DiskTopology.default with logical_block_size := 4096 } ∧
    topology ⟨3, none⟩ (some ⟨512, 4096, 512, 131072⟩) =
      ⟨512, 4096, 512, 131072⟩ := by
  have h1 := (topology_spec ⟨3, some 4096⟩ (some ⟨512, 4096, 512, 131072⟩)).2.1
    4096 rfl
  have h2 := (topology_spec ⟨3, none⟩ (some ⟨512, 4096, 512, 131072⟩)).1 rfl
  exact ⟨rfl, by
    obtain ⟨a, b, c, d⟩ := h1
    cases he : topology ⟨3, some 4096⟩ (some ⟨512, 4096, 512, 131072⟩)
    rw [he] at a b c d
    simp at a b c d
    simp [a, b, c, d], by decide, h2.trans (by decide)⟩

/-- C9 counterexample: `round_up` computes on wrapping `usize` arithmetic,
so at `x = 2^64 - 1`, `L = 3` the intermediate `x + L - 1` wraps and the
result 0 differs from `ceil(x/L)*L = (x + L - 1)/L*L = 2^64 - 1`. -/
theorem round_up_overflow_counterexample :
    round_up (2 ^ 64 - 1) 3 = 0
    ∧ (2 ^ 64 - 1 + 3 - 1) / 3 * 3 = 2 ^ 64 - 1
    ∧ round_up (2 ^ 64 - 1) 3 ≠ (2 ^ 64 - 1 + 3 - 1) / 3 * 3 := by
  refine ⟨?_, by norm_num, ?_⟩ <;> norm_num [round_up, U64]

/-- C9 (amended): for every `x < 2^64` and positive `L`, `round_down x L`
is `floor(x/L)*L` — the greatest multiple of `L` not exceeding `x` — and,
whenever the intermediate `x + L - 1` stays within the `usize` range
(`x + L ≤ 2^64`), `round_up x L` is `ceil(x/L)*L = (x + L - 1)/L*L` — the
least multiple of `L` not below `x`; when that intermediate wraps,
`round_up` differs from `ceil(x/L)*L` (see the counterexample). -/
theorem rounding_helpers_spec (x L : Nat) (hL : 0 < L) (_hx : x < U64) :
    (round_down x L = x / L * L
     ∧ L ∣ round_down x L ∧ round_down x L ≤ x ∧ x < round_down x L + L)
    ∧ (x + L ≤ U64 →
        round_up x L = (x + L - 1) / L * L
        ∧ L ∣ round_up x L ∧ x ≤ round_up x L ∧ round_up x L < x + L) := by
  refine ⟨⟨rfl, dvd_round_down x L, round_down_le x L,
    lt_round_down_add x L hL⟩, fun hb => ⟨?_, dvd_round_up x L,
    le_round_up x L hL hb, round_up_lt x L hL hb⟩⟩
  unfold round_up
  rw [Nat.mod_eq_of_lt (by omega)]

/-- Witness for C9 (amended) at `x = 1000`, `L = 512`:
`round_down = 512`, `round_up = 1024`. -/
theorem rounding_helpers_spec_witness :
    (0 : Nat) < 512 ∧ round_down 1000 512 = 512 ∧ round_up 1000 512 = 1024
    ∧ (512 : Nat) ∣ round_up 1000 512 := by
  have h := rounding_helpers_spec 1000 512 (by decide)
    (by norm_num [U64])
  exact ⟨by decide, by decide, by
      have := (h.2 (by norm_num [U64])).1
      rw [this], (h.2 (by norm_num [U64])).2.1⟩

/-- C10: `new_async_io` returns `Ok` for every queue-depth hint and never
takes the `Err` branch; the constructed engine state (fd, empty queue,
zero eventfd, logical block size) does not depend on the hint; its only
failure mode is the modelled panic (`none`) when eventfd creation fails. -/
theorem new_async_io_spec (s : RawFileDiskSync) (d1 d2 : Nat) :
    new_async_io s d1 true =
      some (Except.ok ⟨s.fd, 0, [], s.logical_block_size⟩)
    ∧ new_async_io s d1 true = new_async_io s d2 true
    ∧ new_async_io s d1 false = none
    ∧ ∀ (d : Nat) (ok : Bool) (err : DiskFileError),
        new_async_io s d ok ≠ some (Except.error err) := by
  refine ⟨by simp [new_async_io, RawFileSync.new], rfl,
    by simp [new_async_io, RawFileSync.new], ?_⟩
  intro d ok err
  cases ok <;> simp [new_async_io, RawFileSync.new]

/-- Witness for C10: at two different hint values the constructed engine is
identical, `Ok`, and independent of the hint. -/
theorem new_async_io_spec_witness :
    new_async_io ⟨5, some 512⟩ 1 true =
      some (Except.ok ⟨5, 0, [], some 512⟩)
    ∧ new_async_io ⟨5, some 512⟩ 1 true = new_async_io ⟨5, some 512⟩ 99 true
    ∧ new_async_io ⟨5, some 512⟩ 1 false = none := by
  have h := new_async_io_spec ⟨5, some 512⟩ 1 99
  exact ⟨h.1, h.2.1, h.2.2.1⟩
